import Mathlib

/-!
Shallow embedding of the bidding/auction core of the bidroom-web repository.

The definitions below are translated from the TypeScript source:
  - app/trip/[tripId]/page.tsx       (main trip page: placeBid, finalizeAuctionCore,
                                      minIncrementFor, minAllowedForRoom, maxAllowedForRoom)
  - the guest-bidder page variant (src/unnamed/part_002), where it differs
    (minAllowedForRoomGuest).

Modelling conventions:
  - JS numbers holding whole-dollar amounts and millisecond timestamps are
    modelled as Int; the bid-input parse result is modelled as a rational (or
    not-a-number), since Number(input) can produce non-integers.
  - Math.ceil(x * 0.1) on an integer x is modelled as the exact rational
    ceiling of x / 10.
  - Firestore documents become structures; the per-room bids subcollection is
    a list field on the room.  Only fields read or written by the auction core
    are modelled (UI-only fields such as name and capacity are omitted).
  - placeBid receives two states: the client snapshot (React state, which the
    pre-transaction checks and the in-transaction sibling-room sum read) and
    the authoritative store contents at transaction time (which tx.get reads).
    A serialized execution is the special case snapshot = store.
  - The fire-and-forget anti-snipe updateDoc that follows a successful
    transaction is modelled as taking effect in the returned state (the
    success path of the code).
-/

namespace Bidroom

/-- Trip lifecycle status, from the Trip type in page.tsx. -/
inductive TripStatus where
  | draft
  | live
  | ended
deriving DecidableEq, Repr

/-- One accepted bid record, as written to the bids subcollection:
fields amount, bidderUid, bidTimeMs (createdAt is a server timestamp used
only for display and is omitted). -/
structure Bid where
  amount : Int
  bidderUid : String
  bidTimeMs : Int
deriving DecidableEq, Repr

/-- A room document.  winnerUid and winnerAmount are written only by
finalizeAuctionCore; bids is the append-only bids subcollection. -/
structure Room where
  id : String
  startingPrice : Int
  currentHighBidAmount : Int
  currentHighBidderUid : Option String
  currentHighBidTimeMs : Option Int
  winnerUid : Option String
  winnerAmount : Option Int
  bids : List Bid
deriving DecidableEq, Repr

/-- The trip document fields read by the auction core.  antiSnipeWindowMinutes
is part of the configuration but is not read by the bid path (the code uses a
hardcoded maxRuleWindowMs); it is kept here because the spec refers to it. -/
structure Trip where
  status : TripStatus
  totalPrice : Int
  antiSnipeWindowMinutes : Int
  antiSnipeExtendMinutes : Int
  auctionEndAt : Option Int
deriving DecidableEq, Repr

/-- A consistent view of a trip document together with its room documents. -/
structure TripState where
  trip : Trip
  rooms : List Room
deriving DecidableEq, Repr

/-- minIncrementFor from page.tsx: Math.max(20, Math.ceil(amount * 0.1)),
with the ceiling taken in exact arithmetic: the ceiling of amount / 10 is
computed as the integer (Euclidean, here floor) division (amount + 9) / 10
so that the definition evaluates by kernel reduction; minIncrementFor_eq_ceil
below proves it equal to the rational ceiling. -/
def minIncrementFor (currentHighBidAmount : Int) : Int :=
  max 20 ((currentHighBidAmount + 9) / 10)

/-- minAllowedForRoom from page.tsx: startingPrice if the room is unbid,
otherwise current high plus the minimum increment. -/
def minAllowedForRoom (room : Room) : Int :=
  let current := room.currentHighBidAmount
  let starting := room.startingPrice
  if current = 0 then starting else current + minIncrementFor current

/-- minAllowedForRoom from the guest-page variant (src/unnamed/part_002),
which clamps the unbid case to Math.max(startingPrice, 20). -/
def minAllowedForRoomGuest (room : Room) : Int :=
  let current := room.currentHighBidAmount
  let starting := room.startingPrice
  if current = 0 then max starting 20 else current + minIncrementFor current

/-- The rooms.reduce in maxAllowedForRoom and in the bid transaction: the sum
of currentHighBidAmount over every room other than the target room. -/
def sumOtherHighs (rooms : List Room) (roomId : String) : Int :=
  ((rooms.filter (fun r => r.id != roomId)).map Room.currentHighBidAmount).sum

/-- maxAllowedForRoom from page.tsx: Math.max(0, totalPrice - sum of other
rooms' current highs). -/
def maxAllowedForRoom (trip : Trip) (rooms : List Room) (roomId : String) : Int :=
  max 0 (trip.totalPrice - sumOtherHighs rooms roomId)

/-- The sum of current high bids over all rooms of a trip (the quantity the
budget invariant bounds). -/
def sumHighs (rooms : List Room) : Int :=
  (rooms.map Room.currentHighBidAmount).sum

deriving instance DecidableEq for Except

/-- The result of Number(typedBidInput): either not a finite number, or a
finite value modelled exactly as a rational. -/
inductive BidInput where
  | notNumeric
  | numeric (value : ℚ)

/-- The distinct rejection outcomes of placeBid, one per early return, alert,
or thrown error in the source. -/
inductive BidReject where
  | notWholeDollar
  | negativeAmount
  | notLive
  | auctionEnded
  | belowMinimum (minAllowed : Int)
  | aboveMaxAllowed (maxAllowed : Int)
  | aboveTotalPrice
  | missingTripOrRoom
  | tieLost
deriving DecidableEq, Repr

/-- The input-shape validation at the top of placeBid: rejects non-finite and
non-integer parses, then rejects negative integers.  Zero is allowed through
("Bid amount must be $0 or greater"). -/
def validateTypedBid : BidInput → Except BidReject Int
  | .notNumeric => .error .notWholeDollar
  | .numeric q =>
    if q.den ≠ 1 then .error .notWholeDollar
    else if q < 0 then .error .negativeAmount
    else .ok q.num

/-- The pre-transaction deadline check `endAtMs && nowMs >= endAtMs`.  A
missing deadline skips the check, and so does an endAtMs of 0 (JS falsiness
of the number 0). -/
def jsDeadlinePassed (auctionEndAt : Option Int) (nowMs : Int) : Bool :=
  match auctionEndAt with
  | none => false
  | some endAtMs => endAtMs != 0 && decide (endAtMs ≤ nowMs)

/-- JS falsiness of the nullable string currentHighBidderUid: null and the
empty string are both falsy in `!existingBidderUid`. -/
def strOptFalsy : Option String → Bool
  | none => true
  | some s => s.isEmpty

/-- The isBetter expression of the bid transaction: a strictly larger amount,
or an equal amount that either has a strictly earlier time than the recorded
high-bid time or displaces the untouched zero state (amount 0 and no
recorded bidder). -/
def betterThanExisting (r : Room) (typedBid bidTimeMs : Int) : Bool :=
  let existingAmt := r.currentHighBidAmount
  let isInitialZeroState := existingAmt == 0 && strOptFalsy r.currentHighBidderUid
  decide (existingAmt < typedBid) ||
    (typedBid == existingAmt &&
      ((match r.currentHighBidTimeMs with
        | some existingTime => decide (bidTimeMs < existingTime)
        | none => false) ||
       isInitialZeroState))

/-- The hardcoded anti-snipe rule window of the bid transaction:
maxRuleWindowMs = 10 * 60 * 1000. -/
def maxRuleWindowMs : Int := 10 * 60 * 1000

/-- The anti-sniping block at the end of the bid transaction.  Fires only when
the transactional read shows a live trip with a set deadline, the bid lands
within the fixed 10-minute rule window, and the guarded extension
min(maxRuleWindowMs, antiSnipeExtendMinutes * 60000) is positive; returns the
new deadline queued for the follow-up updateDoc.  Math.floor on the
configured minutes is the identity here because the field is modelled as an
integer. -/
def antiSnipeNextEndMs (t : Trip) (bidTimeMs : Int) : Option Int :=
  match t.auctionEndAt with
  | none => none
  | some endMs =>
    if t.status = TripStatus.live then
      let msLeft := endMs - bidTimeMs
      let configuredExtendMs := t.antiSnipeExtendMinutes * 60 * 1000
      let extendMs := min maxRuleWindowMs configuredExtendMs
      let nextEndMs := endMs + extendMs
      if 0 ≤ msLeft ∧ msLeft ≤ maxRuleWindowMs ∧ 0 < extendMs ∧
          endMs < nextEndMs ∧ nextEndMs ≤ endMs + maxRuleWindowMs then
        some nextEndMs
      else none
    else none

/-- The two writes of an accepted bid, applied to the room documents whose id
matches the target: tx.set of the new bid record and tx.update of the room's
current-high fields. -/
def updRoom (roomId uid : String) (typedBid bidTimeMs : Int) (rr : Room) : Room :=
  if rr.id == roomId then
    { rr with
      currentHighBidAmount := typedBid
      currentHighBidderUid := some uid
      currentHighBidTimeMs := some bidTimeMs
      bids := rr.bids ++ [⟨typedBid, uid, bidTimeMs⟩] }
  else rr

/-- The runTransaction body of placeBid in page.tsx.  tx.get reads the trip
and the target room from the store; the sibling-room sum for the budget cap
is computed from the client snapshot's rooms array (the React state), exactly
as in the source.  The transactional read recomputes txAuctionLiveNow from
t.status and t.auctionEndAt, but no check in the body rejects on it; the only
throws are the minimum, total-price, budget-cap and tie checks.  On success
the accepted state, including the queued anti-snipe deadline write, is
returned. -/
def bidTransaction (snapRooms : List Room) (store : TripState) (roomId uid : String)
    (typedBid bidTimeMs : Int) : Except BidReject TripState :=
  match store.rooms.find? (fun r => r.id == roomId) with
  | none => .error .missingTripOrRoom
  | some r =>
    let t := store.trip
    let minAllowed := minAllowedForRoom r
    let sumOther := sumOtherHighs snapRooms roomId
    let maxAllowed := max 0 (t.totalPrice - sumOther)
    if typedBid < minAllowed then .error (.belowMinimum minAllowed)
    else if t.totalPrice < typedBid then .error .aboveTotalPrice
    else if maxAllowed < typedBid then .error (.aboveMaxAllowed maxAllowed)
    else if !betterThanExisting r typedBid bidTimeMs &&
        typedBid == r.currentHighBidAmount then
      .error .tieLost
    else
      let newTrip :=
        match antiSnipeNextEndMs t bidTimeMs with
        | some nextEnd => { t with auctionEndAt := some nextEnd }
        | none => t
      .ok { trip := newTrip
            rooms := store.rooms.map (updRoom roomId uid typedBid bidTimeMs) }

/-- placeBid from page.tsx.  Stages, in source order: input-shape validation;
pre-transaction checks against the client snapshot (status live, deadline,
optimistic minimum, optimistic budget cap, total price); then the
transaction.  The signed-in check is dropped because the bidder uid is a
parameter.  snap is the client's React state and store the authoritative
contents read inside the transaction; a serialized execution passes the same
state for both. -/
def placeBid (snap store : TripState) (room : Room) (uid : String)
    (input : BidInput) (nowMs bidTimeMs : Int) : Except BidReject TripState :=
  match validateTypedBid input with
  | .error e => .error e
  | .ok typedBid =>
    let optimisticMinAllowed := minAllowedForRoom room
    let optimisticMaxAllowed := maxAllowedForRoom snap.trip snap.rooms room.id
    if snap.trip.status ≠ TripStatus.live then .error .notLive
    else if jsDeadlinePassed snap.trip.auctionEndAt nowMs then .error .auctionEnded
    else if typedBid < optimisticMinAllowed then .error (.belowMinimum optimisticMinAllowed)
    else if optimisticMaxAllowed < typedBid then .error (.aboveMaxAllowed optimisticMaxAllowed)
    else if snap.trip.totalPrice < typedBid then .error .aboveTotalPrice
    else bidTransaction snap.rooms store room.id uid typedBid bidTimeMs

/-- Stable insertion of an element into a list sorted by the strict
precedence predicate lt: the element goes before the first entry that does
not strictly precede it.  Together with sortBy this is the unique stable sort
for lt, matching the ES2019 stable Array.prototype.sort. -/
def insertSorted (lt : α → α → Bool) (a : α) : List α → List α
  | [] => [a]
  | b :: bs => if lt b a then b :: insertSorted lt a bs else a :: b :: bs

/-- Stable sort by the strict precedence predicate lt (insertion sort). -/
def sortBy (lt : α → α → Bool) : List α → List α
  | [] => []
  | a :: as => insertSorted lt a (sortBy lt as)

/-- Strict precedence of the room comparator
(a, b) => (b.currentHighBidAmount || 0) - (a.currentHighBidAmount || 0):
a comes strictly first when its current high bid is strictly larger. -/
def roomLt (a b : Room) : Bool :=
  decide (b.currentHighBidAmount < a.currentHighBidAmount)

/-- Strict precedence of the bid comparator
(a, b) => (b.amount !== a.amount ? b.amount - a.amount : a.bidTimeMs - b.bidTimeMs):
larger amount first, ties by earlier time. -/
def bidLt (a b : Bid) : Bool :=
  decide (b.amount < a.amount) ||
    (a.amount == b.amount && decide (a.bidTimeMs < b.bidTimeMs))

/-- The per-room bid ordering of finalizeAuctionCore: amount descending, then
time ascending.  The source's filter on field types is vacuous here because
bids are well-typed. -/
def sortBids (bids : List Bid) : List Bid :=
  sortBy bidLt bids

/-- One row of the winner map produced by finalization. -/
structure RoomResult where
  roomId : String
  winnerUid : Option String
  winnerAmount : Option Int
deriving DecidableEq, Repr

/-- The loop body of finalizeAuctionCore over the descending-sorted rooms:
winnersAssigned is the Set of bidder uids already given a room (modelled as a
list queried through contains); each room takes the first sorted bid whose
bidder is not in the set, or records null winner fields. -/
def finalizeAssign : List Room → List String → List RoomResult
  | [], _ => []
  | room :: rest, winnersAssigned =>
    match (sortBids room.bids).find? (fun b => !winnersAssigned.contains b.bidderUid) with
    | some winnerBid =>
      ⟨room.id, some winnerBid.bidderUid, some winnerBid.amount⟩ ::
        finalizeAssign rest (winnerBid.bidderUid :: winnersAssigned)
    | none =>
      ⟨room.id, none, none⟩ :: finalizeAssign rest winnersAssigned

/-- finalizeAuctionCore from page.tsx: sort rooms by current high bid
descending, then greedily assign each room the best bid whose bidder has not
already won a room. -/
def finalizeAuctionCore (rooms : List Room) : List RoomResult :=
  finalizeAssign (sortBy roomLt rooms) []

/-- The batch write of finalizeAuctionCore for one room document: its
winnerUid and winnerAmount are set from the result row with its id (or the
room is left as is when no row matches). -/
def winnerWrite (results : List RoomResult) (r : Room) : Room :=
  match results.find? (fun res => res.roomId == r.id) with
  | some res => { r with winnerUid := res.winnerUid, winnerAmount := res.winnerAmount }
  | none => r

/-- The batch writes of finalizeAuctionCore applied to all room documents. -/
def applyRoomResults (rooms : List Room) (results : List RoomResult) : List Room :=
  rooms.map (winnerWrite results)

/-- The full effect of a finalizeAuctionCore run: winner fields written on
every room and the trip marked ended. -/
def finalizeApply (s : TripState) : TripState :=
  { trip := { s.trip with status := TripStatus.ended }
    rooms := applyRoomResults s.rooms (finalizeAuctionCore s.rooms) }

/-- The finalization algorithm as worded by the spec: for each room of the
(already descending-sorted) list in order, among that room's bids sorted by
amount descending then time ascending, select the highest-ranked bid whose
bidder has not already been assigned a room; assignedBefore accumulates, in
assignment order, the bidders already given a room. -/
def assignGreedySpec : List Room → List String → List RoomResult
  | [], _ => []
  | room :: rest, assignedBefore =>
    match (sortBids room.bids).find? (fun b => !assignedBefore.contains b.bidderUid) with
    | some w =>
      ⟨room.id, some w.bidderUid, some w.amount⟩ ::
        assignGreedySpec rest (assignedBefore ++ [w.bidderUid])
    | none =>
      ⟨room.id, none, none⟩ :: assignGreedySpec rest assignedBefore

/-- A freshly set-up (or just reset) trip: every room has current high bid 0,
room ids are distinct (Firestore document ids), and the configured total
price is non-negative (the spec requires a positive integer). -/
structure InitState (s : TripState) : Prop where
  highsZero : ∀ r ∈ s.rooms, r.currentHighBidAmount = 0
  idsNodup : (s.rooms.map Room.id).Nodup
  budgetNonneg : 0 ≤ s.trip.totalPrice

/-- States reachable from a fresh trip by serialized accepted PlaceBid
operations (each bid sees the current store as its snapshot). -/
inductive Reachable : TripState → Prop
  | init (s : TripState) : InitState s → Reachable s
  | bid (s s' : TripState) (room : Room) (uid : String) (input : BidInput)
      (nowMs bidTimeMs : Int) :
      Reachable s → placeBid s s room uid input nowMs bidTimeMs = .ok s' → Reachable s'

/-- The running invariant of the auction ledger: distinct room ids,
non-negative current highs, and the cross-room budget bound. -/
def StateInv (s : TripState) : Prop :=
  (s.rooms.map Room.id).Nodup ∧
    (∀ r ∈ s.rooms, 0 ≤ r.currentHighBidAmount) ∧
    sumHighs s.rooms ≤ s.trip.totalPrice

/-! Concrete fixtures used by witnesses and counterexamples. -/

/-- A live trip with total price 1000 and default anti-snipe configuration,
no deadline set. -/
def exTripLive : Trip := ⟨TripStatus.live, 1000, 10, 10, none⟩

/-- An unbid room with starting price 100. -/
def exRoomEmpty : Room := ⟨"r1", 100, 0, none, none, none, none, []⟩

/-- A fresh one-room live trip. -/
def exState0 : TripState := ⟨exTripLive, [exRoomEmpty]⟩

/-- exState0 after an accepted bid of 100 by bidder A at time 5. -/
def exState1 : TripState :=
  ⟨exTripLive, [⟨"r1", 100, 100, some "A", some 5, none, none, [⟨100, "A", 5⟩]⟩]⟩

/-- The same trip as exTripLive but already ended. -/
def exTripEnded : Trip := ⟨TripStatus.ended, 1000, 10, 10, none⟩

/-- Store contents at transaction time for an ended trip (same single empty
room as exState0). -/
def exStoreEnded : TripState := ⟨exTripEnded, [exRoomEmpty]⟩

/-- The accepted result of bidding 100 against exStoreEnded: the bid is
written even though the transactional read shows status ended. -/
def exStoreEndedAfter : TripState :=
  ⟨exTripEnded, [⟨"r1", 100, 100, some "A", some 5, none, none, [⟨100, "A", 5⟩]⟩]⟩

/-- An unbid room whose starting price is 0. -/
def exRoomZeroStart : Room := ⟨"z1", 0, 0, none, none, none, none, []⟩

/-- A live trip holding only the zero-starting-price room. -/
def exStateZeroStart : TripState := ⟨exTripLive, [exRoomZeroStart]⟩

/-- exStateZeroStart after an accepted bid of 0 by bidder A at time 5. -/
def exStateZeroStartAfter : TripState :=
  ⟨exTripLive, [⟨"z1", 0, 0, some "A", some 5, none, none, [⟨0, "A", 5⟩]⟩]⟩

/-- The rational 3/2, a finite non-integer bid parse. -/
def exRatHalf : ℚ := ⟨3, 2, by norm_num, by norm_num⟩

/-- A live trip with configured anti-snipe window 5 minutes, extension 10
minutes, and deadline at 1000000 ms. -/
def exTripSnipe : Trip := ⟨TripStatus.live, 1000, 5, 10, some 1000000⟩

/-- An unbid room with starting price 10 (below the guest variant's clamp). -/
def exRoomStart10 : Room := ⟨"r1", 10, 0, none, none, none, none, []⟩

/-- A room with starting price 100 and a standing high bid of 100 by A. -/
def exRoomHigh100 : Room :=
  ⟨"r1", 100, 100, some "A", some 10, none, none, [⟨100, "A", 10⟩]⟩

/-- A live one-room trip around exRoomHigh100. -/
def exStateHigh100 : TripState := ⟨exTripLive, [exRoomHigh100]⟩

/-- exStateHigh100 after an accepted bid of 120 by B at time 20. -/
def exStateHigh100After : TripState :=
  ⟨exTripLive, [⟨"r1", 100, 120, some "B", some 20, none, none,
    [⟨100, "A", 10⟩, ⟨120, "B", 20⟩]⟩]⟩

/-- The empty room after bidder A's bid of 100 committed at time 1000. -/
def exRoomTieA : Room :=
  ⟨"r1", 100, 100, some "A", some 1000, none, none, [⟨100, "A", 1000⟩]⟩

/-- One-room trip state holding exRoomTieA. -/
def exStateTieA : TripState := ⟨exTripLive, [exRoomTieA]⟩

/-- The empty room after bidder B's bid of 100 committed at time 2000. -/
def exRoomTieB : Room :=
  ⟨"r1", 100, 100, some "B", some 2000, none, none, [⟨100, "B", 2000⟩]⟩

/-- One-room trip state holding exRoomTieB. -/
def exStateTieB : TripState := ⟨exTripLive, [exRoomTieB]⟩

/-- Finalization fixture: room r1 with high bid 100 by A. -/
def exRoomF1 : Room := ⟨"r1", 0, 100, some "A", some 1, none, none, [⟨100, "A", 1⟩]⟩

/-- Finalization fixture: room r2 whose leading bidder is also A (90), with a
lower bid of 60 by B in its history. -/
def exRoomF2 : Room :=
  ⟨"r2", 0, 90, some "A", some 2, none, none, [⟨90, "A", 2⟩, ⟨60, "B", 3⟩]⟩

/-! General lemmas about the embedded definitions. -/

/-- The integer form of the minimum increment agrees with the exact rational
ceiling Math.ceil(amount * 0.1) computes. -/
theorem minIncrementFor_eq_ceil (a : Int) :
    minIncrementFor a = max 20 ⌈(a : ℚ) / 10⌉ := by
  have hceil : ⌈(a : ℚ) / 10⌉ = (a + 9) / 10 := by
    rw [Int.ceil_eq_iff]
    have h := Int.ediv_add_emod (a + 9) 10
    have h2 := Int.emod_nonneg (a + 9) (by norm_num : (10 : ℤ) ≠ 0)
    have h3 := Int.emod_lt_of_pos (a + 9) (by norm_num : (0 : ℤ) < 10)
    constructor
    · rw [lt_div_iff₀ (by norm_num : (0 : ℚ) < 10)]
      exact_mod_cast (by omega : ((a + 9) / 10 - 1) * 10 < a)
    · rw [div_le_iff₀ (by norm_num : (0 : ℚ) < 10)]
      exact_mod_cast (by omega : a ≤ (a + 9) / 10 * 10)
  rw [minIncrementFor, hceil]

/-- The minimum increment is always at least 20. -/
theorem minIncrementFor_ge (a : Int) : 20 ≤ minIncrementFor a :=
  le_max_left _ _

/-- Validation only lets non-negative integers through. -/
theorem validateTypedBid_ok_nonneg {input : BidInput} {n : Int}
    (h : validateTypedBid input = .ok n) : 0 ≤ n := by
  cases input with
  | notNumeric => simp [validateTypedBid] at h
  | numeric q =>
    unfold validateTypedBid at h
    dsimp only at h
    split_ifs at h with h1 h2
    cases h
    exact Rat.num_nonneg.mpr (not_lt.mp h2)

/-- Inversion of a successful bid transaction: the target room was found and
each in-transaction check passed, and the resulting state is the store with
the matching room updated (status and total price unchanged). -/
theorem bidTransaction_ok {snapRooms : List Room} {store : TripState}
    {roomId uid : String} {typedBid bidTimeMs : Int} {s' : TripState}
    (h : bidTransaction snapRooms store roomId uid typedBid bidTimeMs = .ok s') :
    ∃ r, store.rooms.find? (fun rr => rr.id == roomId) = some r ∧
      minAllowedForRoom r ≤ typedBid ∧
      typedBid ≤ store.trip.totalPrice ∧
      typedBid ≤ max 0 (store.trip.totalPrice - sumOtherHighs snapRooms roomId) ∧
      (betterThanExisting r typedBid bidTimeMs = true ∨ typedBid ≠ r.currentHighBidAmount) ∧
      s'.trip.status = store.trip.status ∧
      s'.trip.totalPrice = store.trip.totalPrice ∧
      s'.rooms = store.rooms.map (updRoom roomId uid typedBid bidTimeMs) := by
  unfold bidTransaction at h
  cases hfind : store.rooms.find? (fun rr => rr.id == roomId) with
  | none => rw [hfind] at h; exact absurd h (by simp)
  | some r =>
    rw [hfind] at h
    dsimp only at h
    refine ⟨r, rfl, ?_⟩
    split_ifs at h with h1 h2 h3 h4
    cases h
    refine ⟨not_lt.mp h1, not_lt.mp h2, not_lt.mp h3, ?_, ?_, ?_, rfl⟩
    · rcases Bool.and_eq_false_iff.mp (Bool.eq_false_iff.mpr h4) with hb | hb
      · exact Or.inl (by simpa using hb)
      · exact Or.inr (by simpa using hb)
    all_goals cases hsnipe : antiSnipeNextEndMs store.trip bidTimeMs <;>
      simp [hsnipe]

/-- Inversion of a successful placeBid call: the input validated, the
snapshot pre-checks passed, and the transaction succeeded. -/
theorem placeBid_ok {snap store : TripState} {room : Room} {uid : String}
    {input : BidInput} {nowMs bidTimeMs : Int} {s' : TripState}
    (h : placeBid snap store room uid input nowMs bidTimeMs = .ok s') :
    ∃ typedBid, validateTypedBid input = .ok typedBid ∧
      snap.trip.status = TripStatus.live ∧
      jsDeadlinePassed snap.trip.auctionEndAt nowMs = false ∧
      minAllowedForRoom room ≤ typedBid ∧
      typedBid ≤ maxAllowedForRoom snap.trip snap.rooms room.id ∧
      typedBid ≤ snap.trip.totalPrice ∧
      bidTransaction snap.rooms store room.id uid typedBid bidTimeMs = .ok s' := by
  unfold placeBid at h
  cases hv : validateTypedBid input with
  | error e => rw [hv] at h; exact absurd h (by simp)
  | ok typedBid =>
    rw [hv] at h
    dsimp only at h
    split_ifs at h with h1 h2 h3 h4 h5
    exact ⟨typedBid, rfl, not_ne_iff.mp h1, by simpa using h2,
      not_lt.mp h3, not_lt.mp h4, not_lt.mp h5, h⟩

/-- The room update never changes a room's id. -/
theorem updRoom_id (roomId uid : String) (tb bt : Int) (rr : Room) :
    (updRoom roomId uid tb bt rr).id = rr.id := by
  unfold updRoom
  split_ifs <;> rfl

/-- Rooms whose id differs from the target are untouched. -/
theorem updRoom_nomatch {roomId : String} {rr : Room} (h : rr.id ≠ roomId)
    (uid : String) (tb bt : Int) : updRoom roomId uid tb bt rr = rr := by
  unfold updRoom
  simp [h]

/-- Updating a list in which no room has the target id is the identity. -/
theorem map_updRoom_of_forall {roomId : String} {rooms : List Room}
    (h : ∀ rr ∈ rooms, rr.id ≠ roomId) (uid : String) (tb bt : Int) :
    rooms.map (updRoom roomId uid tb bt) = rooms := by
  induction rooms with
  | nil => rfl
  | cons a as ih =>
    simp only [List.map_cons]
    rw [updRoom_nomatch (h a (by simp)) uid tb bt,
      ih (fun rr hrr => h rr (List.mem_cons_of_mem a hrr))]

/-- Updating rooms leaves the list of ids unchanged. -/
theorem ids_map_updRoom (roomId uid : String) (tb bt : Int) (rooms : List Room) :
    (rooms.map (updRoom roomId uid tb bt)).map Room.id = rooms.map Room.id := by
  rw [List.map_map]
  exact List.map_congr_left (fun a _ => updRoom_id roomId uid tb bt a)

theorem sumHighs_cons (a : Room) (l : List Room) :
    sumHighs (a :: l) = a.currentHighBidAmount + sumHighs l := by
  simp [sumHighs]

theorem sumOtherHighs_cons (a : Room) (l : List Room) (roomId : String) :
    sumOtherHighs (a :: l) roomId =
      (if a.id = roomId then 0 else a.currentHighBidAmount) + sumOtherHighs l roomId := by
  by_cases ha : a.id = roomId <;> simp [sumOtherHighs, List.filter_cons, ha]

/-- An all-zero room list sums to zero. -/
theorem sumHighs_eq_zero {rooms : List Room}
    (h : ∀ r ∈ rooms, r.currentHighBidAmount = 0) : sumHighs rooms = 0 :=
  List.sum_eq_zero (by
    intro x hx
    obtain ⟨r, hr, rfl⟩ := List.mem_map.mp hx
    exact h r hr)

/-- Decomposition of the room sums around the target of an update: with
distinct ids, the updated list sums to the other rooms plus the new amount,
and the original list sums to the other rooms plus the target's old amount. -/
theorem sum_update {rooms : List Room} {roomId : String} {r : Room}
    (hnd : (rooms.map Room.id).Nodup)
    (hfind : rooms.find? (fun rr => rr.id == roomId) = some r)
    (uid : String) (tb bt : Int) :
    sumHighs (rooms.map (updRoom roomId uid tb bt)) = sumOtherHighs rooms roomId + tb ∧
      sumHighs rooms = sumOtherHighs rooms roomId + r.currentHighBidAmount := by
  induction rooms with
  | nil => simp at hfind
  | cons a as ih =>
    by_cases ha : a.id = roomId
    · have hfa : (a :: as).find? (fun rr => rr.id == roomId) = some a :=
        List.find?_cons_of_pos _ (by simpa using ha)
      have hra : r = a := by
        rw [hfa] at hfind
        injection hfind with h
        exact h.symm
      have hnotin : ∀ rr ∈ as, rr.id ≠ roomId := by
        intro rr hrr heq
        have : a.id ∈ as.map Room.id := by
          rw [ha, ← heq]
          exact List.mem_map_of_mem Room.id hrr
        exact (List.nodup_cons.mp hnd).1 this
      have hskip : as.map (updRoom roomId uid tb bt) = as :=
        map_updRoom_of_forall hnotin uid tb bt
      have hfilter : as.filter (fun rr => rr.id != roomId) = as :=
        List.filter_eq_self.mpr (fun rr hrr => by simpa using hnotin rr hrr)
      constructor
      · rw [List.map_cons, hskip, sumHighs_cons, sumOtherHighs_cons]
        simp only [ha, if_pos]
        have : (updRoom roomId uid tb bt a).currentHighBidAmount = tb := by
          unfold updRoom
          simp [ha]
        rw [this]
        unfold sumOtherHighs sumHighs
        rw [hfilter]
        ring
      · rw [sumHighs_cons, sumOtherHighs_cons]
        simp only [ha, if_pos]
        unfold sumOtherHighs sumHighs
        rw [hfilter, hra]
        ring
    · have hfa : (a :: as).find? (fun rr => rr.id == roomId) = as.find? (fun rr => rr.id == roomId) := by
        rw [List.find?_cons_of_neg _ (by simpa using ha)]
      rw [hfa] at hfind
      obtain ⟨ih1, ih2⟩ := ih (List.nodup_cons.mp hnd).2 hfind
      constructor
      · rw [List.map_cons, sumHighs_cons, sumOtherHighs_cons,
          updRoom_nomatch ha uid tb bt, if_neg ha, ih1]
        ring
      · rw [sumHighs_cons, sumOtherHighs_cons, if_neg ha, ih2]
        ring

/-- Every reachable state satisfies the ledger invariant. -/
theorem reachable_inv {s : TripState} (h : Reachable s) : StateInv s := by
  induction h with
  | init s h0 =>
    refine ⟨h0.idsNodup, fun r hr => le_of_eq (h0.highsZero r hr).symm, ?_⟩
    rw [sumHighs_eq_zero h0.highsZero]
    exact h0.budgetNonneg
  | bid s s' room uid input nowMs bidTimeMs hreach hok ih =>
    obtain ⟨tb, hv, _, _, _, _, _, htx⟩ := placeBid_ok hok
    obtain ⟨r, hfind, hmin, htot, hmax, _, _, htp, hrooms⟩ := bidTransaction_ok htx
    have h0tb := validateTypedBid_ok_nonneg hv
    have hmem : r ∈ s.rooms := List.mem_of_find?_eq_some hfind
    obtain ⟨hnd, hpos, hsum⟩ := ih
    obtain ⟨hup, hdec⟩ := sum_update hnd hfind uid tb bidTimeMs
    refine ⟨?_, ?_, ?_⟩
    · rw [hrooms, ids_map_updRoom]
      exact hnd
    · intro r' hr'
      rw [hrooms] at hr'
      obtain ⟨rr, hrr, rfl⟩ := List.mem_map.mp hr'
      unfold updRoom
      split_ifs
      · exact h0tb
      · exact hpos rr hrr
    · rw [hrooms, htp, hup]
      have hother : sumOtherHighs s.rooms room.id ≤ s.trip.totalPrice := by
        have := hpos r hmem
        omega
      rcases max_choice 0 (s.trip.totalPrice - sumOtherHighs s.rooms room.id) with hmx | hmx <;>
        rw [hmx] at hmax <;> omega

/-- Pointwise relation between a list and its image under a map. -/
theorem forall2_map_self {α : Type} {R : α → α → Prop} {g : α → α} {l : List α}
    (h : ∀ a ∈ l, R a (g a)) : List.Forall₂ R l (l.map g) := by
  induction l with
  | nil => exact List.Forall₂.nil
  | cons a as ih =>
    exact List.Forall₂.cons (h a (by simp)) (ih fun x hx => h x (List.mem_cons_of_mem a hx))

/-- C1: for every state reachable by accepted PlaceBid operations, the sum of
all rooms' current high bids is at most the trip's total budget, and any
further accepted bid's amount is at most max(0, totalBudget minus the sum of
the other rooms' current highs). -/
theorem C1_budget_invariant (s : TripState) (hs : Reachable s) :
    sumHighs s.rooms ≤ s.trip.totalPrice ∧
      ∀ (room : Room) (uid : String) (input : BidInput) (typedBid nowMs bidTimeMs : Int)
        (s' : TripState),
        validateTypedBid input = .ok typedBid →
        placeBid s s room uid input nowMs bidTimeMs = .ok s' →
        typedBid ≤ max 0 (s.trip.totalPrice - sumOtherHighs s.rooms room.id) := by
  refine ⟨(reachable_inv hs).2.2, ?_⟩
  intro room uid input typedBid nowMs bidTimeMs s' hv hok
  obtain ⟨tb, hv', _, _, _, _, _, htx⟩ := placeBid_ok hok
  have htb : tb = typedBid := by
    rw [hv] at hv'
    injection hv' with h
    exact h.symm
  subst htb
  obtain ⟨r, _, _, _, hmax, _⟩ := bidTransaction_ok htx
  exact hmax

/-- Witness for C1 at a concrete fresh trip and a concrete accepted bid. -/
theorem C1_budget_invariant_witness :
    sumHighs exState0.rooms ≤ exState0.trip.totalPrice ∧
      (100 : Int) ≤ max 0 (exState0.trip.totalPrice - sumOtherHighs exState0.rooms exRoomEmpty.id) := by
  have h := C1_budget_invariant exState0 (Reachable.init _ ⟨by decide, by decide, by decide⟩)
  exact ⟨h.1, h.2 exRoomEmpty "A" (.numeric 100) 100 0 5 exState1 (by decide) (by decide)⟩

/-- C8: from any reachable state, an accepted PlaceBid leaves every room's id
in place and never decreases any room's current high bid. -/
theorem C8_monotonic_high_bid (s : TripState) (hs : Reachable s) (room : Room)
    (uid : String) (input : BidInput) (nowMs bidTimeMs : Int) (s' : TripState)
    (hok : placeBid s s room uid input nowMs bidTimeMs = .ok s') :
    List.Forall₂
      (fun r0 r1 => r0.id = r1.id ∧ r0.currentHighBidAmount ≤ r1.currentHighBidAmount)
      s.rooms s'.rooms := by
  obtain ⟨hnd, hpos, _⟩ := reachable_inv hs
  obtain ⟨tb, hv, _, _, _, _, _, htx⟩ := placeBid_ok hok
  obtain ⟨r, hfind, hmin, _, _, _, _, _, hrooms⟩ := bidTransaction_ok htx
  have h0tb := validateTypedBid_ok_nonneg hv
  have hrmem := List.mem_of_find?_eq_some hfind
  have hrid : r.id = room.id := by simpa using List.find?_some hfind
  rw [hrooms]
  apply forall2_map_self
  intro rr hrr
  unfold updRoom
  split_ifs with hid
  · refine ⟨rfl, ?_⟩
    show rr.currentHighBidAmount ≤ tb
    have hrr_eq : rr = r :=
      List.inj_on_of_nodup_map hnd hrr hrmem (by rw [hrid]; simpa using hid)
    subst hrr_eq
    by_cases hz : rr.currentHighBidAmount = 0
    · rw [hz]
      exact h0tb
    · have hmin_eq : minAllowedForRoom rr =
          rr.currentHighBidAmount + minIncrementFor rr.currentHighBidAmount := by
        unfold minAllowedForRoom
        simp [hz]
      have h20 := minIncrementFor_ge rr.currentHighBidAmount
      omega
  · exact ⟨rfl, le_refl _⟩

/-- Witness for C8 at a concrete reachable state and accepted bid. -/
theorem C8_monotonic_high_bid_witness :
    List.Forall₂
      (fun r0 r1 => r0.id = r1.id ∧ r0.currentHighBidAmount ≤ r1.currentHighBidAmount)
      exState0.rooms exState1.rooms :=
  C8_monotonic_high_bid exState0 (Reachable.init _ ⟨by decide, by decide, by decide⟩)
    exRoomEmpty "A" (.numeric 100) 0 5 exState1 (by decide)

/-- C2: evaluation of the code at the failing input.  The client snapshot is
live with no deadline passed, so the pre-transaction checks pass; the store
read inside the transaction shows the trip already ended, yet the bid is
accepted and written, because the transaction body computes but never
enforces the live/deadline condition. -/
theorem C2_tx_liveness_not_enforced :
    exState0.trip.status = TripStatus.live ∧
      exStoreEnded.trip.status = TripStatus.ended ∧
      placeBid exState0 exStoreEnded exRoomEmpty "A" (.numeric 100) 0 5 =
        .ok exStoreEndedAfter := by
  refine ⟨rfl, rfl, by decide⟩

/-- C9 counterexample: a PlaceBid with amount 0 is not rejected by the
input-shape validation; on a room with starting price 0 it is even accepted
and written, contradicting the claim that zero amounts are rejected before
any transaction begins. -/
theorem C9_zero_amount_counterexample :
    validateTypedBid (.numeric 0) = .ok 0 ∧
      placeBid exStateZeroStart exStateZeroStart exRoomZeroStart "A" (.numeric 0) 0 5 =
        .ok exStateZeroStartAfter := by
  refine ⟨by decide, by decide⟩

/-- C9 amended: every PlaceBid whose amount is non-numeric, a non-integer, or
a negative integer is rejected by validation before the transaction (the
call returns the validation error, touching no state); zero passes
validation. -/
theorem C9_validation_amended (snap store : TripState) (room : Room) (uid : String)
    (nowMs bidTimeMs : Int) :
    placeBid snap store room uid .notNumeric nowMs bidTimeMs = .error .notWholeDollar ∧
      (∀ q : ℚ,
        (q.den ≠ 1 →
          placeBid snap store room uid (.numeric q) nowMs bidTimeMs = .error .notWholeDollar) ∧
        (q < 0 → q.den = 1 →
          placeBid snap store room uid (.numeric q) nowMs bidTimeMs = .error .negativeAmount)) ∧
      validateTypedBid (.numeric 0) = .ok 0 := by
  refine ⟨rfl, ?_, by decide⟩
  intro q
  constructor
  · intro hq
    unfold placeBid validateTypedBid
    simp [hq]
  · intro hneg hden
    unfold placeBid validateTypedBid
    simp [hden, hneg]

/-- Witness for C9 at concrete bad inputs. -/
theorem C9_validation_amended_witness :
    placeBid exState0 exState0 exRoomEmpty "A" .notNumeric 0 5 = .error .notWholeDollar ∧
      placeBid exState0 exState0 exRoomEmpty "A" (.numeric exRatHalf) 0 5 =
        .error .notWholeDollar ∧
      placeBid exState0 exState0 exRoomEmpty "A" (.numeric (-5)) 0 5 =
        .error .negativeAmount := by
  refine ⟨(C9_validation_amended exState0 exState0 exRoomEmpty "A" 0 5).1,
    ((C9_validation_amended exState0 exState0 exRoomEmpty "A" 0 5).2.1 exRatHalf).1 (by decide),
    ((C9_validation_amended exState0 exState0 exRoomEmpty "A" 0 5).2.1 (-5)).2
      (by norm_num) (by norm_num)⟩

/-- C4 counterexample: with a configured antiSnipeWindow of 5 minutes, a bid
landing 7 minutes before the deadline is outside the configured window, yet
the code extends the deadline (by 10 minutes, which also exceeds the
configured window), because the transaction uses the hardcoded 10-minute
rule window instead of the configured one. -/
theorem C4_configured_window_counterexample :
    antiSnipeNextEndMs exTripSnipe 580000 = some 1600000 ∧
      exTripSnipe.antiSnipeWindowMinutes * 60 * 1000 < 1000000 - 580000 ∧
      exTripSnipe.auctionEndAt = some 1000000 ∧
      exTripSnipe.antiSnipeWindowMinutes * 60 * 1000 < 1600000 - 1000000 := by
  refine ⟨by decide, by decide, rfl, by decide⟩

/-- C4 amended: the anti-snipe controller fires exactly when the
transactional read shows a live trip whose deadline lies within the fixed
10-minute rule window of the bid time and the guarded extension
min(maxRuleWindowMs, configured extension) is positive; the new deadline is
the old one plus that extension, which is always a strict increase of at
most maxRuleWindowMs, independently of the configured antiSnipeWindow. -/
theorem C4_anti_snipe_amended (t : Trip) (bidTimeMs : Int) :
    (∀ newEnd, antiSnipeNextEndMs t bidTimeMs = some newEnd →
      ∃ endMs, t.auctionEndAt = some endMs ∧ t.status = TripStatus.live ∧
        0 ≤ endMs - bidTimeMs ∧ endMs - bidTimeMs ≤ maxRuleWindowMs ∧
        newEnd = endMs + min maxRuleWindowMs (t.antiSnipeExtendMinutes * 60 * 1000) ∧
        endMs < newEnd ∧ newEnd ≤ endMs + maxRuleWindowMs) ∧
    (∀ endMs, t.status = TripStatus.live → t.auctionEndAt = some endMs →
      0 ≤ endMs - bidTimeMs → endMs - bidTimeMs ≤ maxRuleWindowMs →
      0 < min maxRuleWindowMs (t.antiSnipeExtendMinutes * 60 * 1000) →
      antiSnipeNextEndMs t bidTimeMs =
        some (endMs + min maxRuleWindowMs (t.antiSnipeExtendMinutes * 60 * 1000))) := by
  constructor
  · intro newEnd h
    unfold antiSnipeNextEndMs at h
    cases hE : t.auctionEndAt with
    | none => rw [hE] at h; exact absurd h (by simp)
    | some endMs =>
      rw [hE] at h
      dsimp only at h
      split_ifs at h with hlive hcond
      injection h with h
      obtain ⟨h1, h2, h3, h4, h5⟩ := hcond
      exact ⟨endMs, rfl, hlive, h1, h2, h.symm, by omega, by omega⟩
  · intro endMs hlive hE hge hle hpos
    unfold antiSnipeNextEndMs
    rw [hE]
    dsimp only
    rw [if_pos hlive, if_pos ⟨hge, hle, hpos, by omega, by omega⟩]

/-- Witness for C4 at a concrete in-window bid. -/
theorem C4_anti_snipe_amended_witness :
    antiSnipeNextEndMs exTripSnipe 999000 =
      some (1000000 + min maxRuleWindowMs (exTripSnipe.antiSnipeExtendMinutes * 60 * 1000)) :=
  (C4_anti_snipe_amended exTripSnipe 999000).2 1000000 rfl rfl
    (by decide) (by decide) (by decide)

/-- C3 counterexample: in the guest-page variant, an unbid room with starting
price 10 has minimum acceptable bid 20, not its startingPrice, refuting the
claim for that variant. -/
theorem C3_guest_minimum_counterexample :
    exRoomStart10.currentHighBidAmount = 0 ∧
      exRoomStart10.startingPrice = 10 ∧
      minAllowedForRoomGuest exRoomStart10 = 20 ∧
      (minAllowedForRoomGuest exRoomStart10 == exRoomStart10.startingPrice) = false := by
  refine ⟨rfl, rfl, by decide, by decide⟩

/-- C3 amended: in the main trip page the minimum acceptable bid of an unbid
room is its startingPrice, while the guest-page variant clamps it to
max(startingPrice, 20); on a room with a positive current high both variants
require currentHighBid + max(20, ceil(currentHighBid / 10)); in particular
with startingPrice 100 and current high 100 the next bid must be at least
120, a bid of 110 is rejected below-minimum, and a bid of 120 is accepted. -/
theorem C3_minimum_bid_amended :
    (∀ room : Room,
      (room.currentHighBidAmount = 0 →
        minAllowedForRoom room = room.startingPrice ∧
        minAllowedForRoomGuest room = max room.startingPrice 20) ∧
      (room.currentHighBidAmount ≠ 0 →
        minAllowedForRoom room =
          room.currentHighBidAmount + max 20 ⌈(room.currentHighBidAmount : ℚ) / 10⌉ ∧
        minAllowedForRoomGuest room = minAllowedForRoom room)) ∧
      minAllowedForRoom exRoomHigh100 = 120 ∧
      minAllowedForRoomGuest exRoomHigh100 = 120 ∧
      placeBid exStateHigh100 exStateHigh100 exRoomHigh100 "B" (.numeric 110) 0 20 =
        .error (.belowMinimum 120) ∧
      placeBid exStateHigh100 exStateHigh100 exRoomHigh100 "B" (.numeric 120) 0 20 =
        .ok exStateHigh100After := by
  refine ⟨?_, by decide, by decide, by decide, by decide⟩
  intro room
  constructor
  · intro hz
    constructor <;> simp [minAllowedForRoom, minAllowedForRoomGuest, hz]
  · intro hnz
    constructor
    · rw [← minIncrementFor_eq_ceil]
      simp [minAllowedForRoom, hnz]
    · simp [minAllowedForRoom, minAllowedForRoomGuest, hnz]

/-- Witness for C3 amended, applied to the clamped unbid room. -/
theorem C3_minimum_bid_amended_witness :
    minAllowedForRoom exRoomStart10 = exRoomStart10.startingPrice ∧
      minAllowedForRoomGuest exRoomStart10 = max exRoomStart10.startingPrice 20 :=
  (C3_minimum_bid_amended.1 exRoomStart10).1 (by decide)

/-- C5 counterexample: two equal bids of 100 on the empty room carry times
1000 < 2000, but the bid with time 2000 is committed first; the later-
committed bid with the strictly earlier time 1000 is then rejected as
below-minimum (not as a lost tie), and the room keeps the time-2000 bid as
its high bid - refuting the claim that the earlier-time bid is accepted and
ends up as the high bid. -/
theorem C5_equal_bid_counterexample :
    placeBid exState0 exState0 exRoomEmpty "B" (.numeric 100) 0 2000 = .ok exStateTieB ∧
      placeBid exStateTieB exStateTieB exRoomTieB "A" (.numeric 100) 0 1000 =
        .error (.belowMinimum 120) ∧
      exRoomTieB.currentHighBidTimeMs = some 2000 ∧
      (1000 : Int) < 2000 := by
  refine ⟨by decide, by decide, rfl, by decide⟩

/-- C5 amended: an accepted bid equal to the target room's recorded current
high requires either a strictly earlier time than the recorded high-bid time
or the untouched zero state (high 0 and falsy bidder); a bid equal to a
positive current high is always rejected (the minimum rule already excludes
it), so of two equal bids on an empty room the first committed one keeps the
room, whichever commit order occurs; when the earlier-time bid commits
first, the t1 bid wins as claimed. -/
theorem C5_tie_resolution_amended :
    (∀ (snap store : TripState) (room r : Room) (uid : String) (input : BidInput)
      (nowMs bidTimeMs tb : Int) (s' : TripState),
      store.rooms.find? (fun rr => rr.id == room.id) = some r →
      validateTypedBid input = .ok tb →
      tb = r.currentHighBidAmount →
      placeBid snap store room uid input nowMs bidTimeMs = .ok s' →
      ((∃ tOld, r.currentHighBidTimeMs = some tOld ∧ bidTimeMs < tOld) ∨
        (r.currentHighBidAmount = 0 ∧ strOptFalsy r.currentHighBidderUid = true))) ∧
    (∀ (snap store : TripState) (room r : Room) (uid : String) (input : BidInput)
      (nowMs bidTimeMs : Int),
      store.rooms.find? (fun rr => rr.id == room.id) = some r →
      0 < r.currentHighBidAmount →
      validateTypedBid input = .ok r.currentHighBidAmount →
      (placeBid snap store room uid input nowMs bidTimeMs).isOk = false) ∧
    (placeBid exState0 exState0 exRoomEmpty "A" (.numeric 100) 0 1000 = .ok exStateTieA ∧
      placeBid exStateTieA exStateTieA exRoomTieA "B" (.numeric 100) 0 2000 =
        .error (.belowMinimum 120)) := by
  refine ⟨?_, ?_, by decide, by decide⟩
  · intro snap store room r uid input nowMs bidTimeMs tb s' hfind hv hteq hok
    obtain ⟨tb', hv', _, _, _, _, _, htx⟩ := placeBid_ok hok
    have htb : tb' = tb := by
      rw [hv] at hv'
      injection hv' with h
      exact h.symm
    subst htb
    obtain ⟨r', hfind', _, _, _, htie, _⟩ := bidTransaction_ok htx
    have hr : r' = r := by
      rw [hfind] at hfind'
      injection hfind' with h
      exact h.symm
    rw [hr] at htie
    have hb := htie.resolve_right (fun hne => hne hteq)
    rw [hteq] at hb
    unfold betterThanExisting at hb
    dsimp only at hb
    rw [decide_eq_false (lt_irrefl _), Bool.false_or, beq_self_eq_true,
      Bool.true_and, Bool.or_eq_true] at hb
    rcases hb with hmatch | hzero
    · cases hT : r.currentHighBidTimeMs with
      | none => rw [hT] at hmatch; exact absurd hmatch (by simp)
      | some tOld =>
        rw [hT] at hmatch
        exact Or.inl ⟨tOld, rfl, by simpa using hmatch⟩
    · rw [Bool.and_eq_true] at hzero
      exact Or.inr ⟨by simpa using hzero.1, hzero.2⟩
  · intro snap store room r uid input nowMs bidTimeMs hfind hpos hv
    unfold placeBid
    rw [hv]
    dsimp only
    split_ifs
    · rfl
    · rfl
    · rfl
    · rfl
    · rfl
    · unfold bidTransaction
      rw [hfind]
      dsimp only
      have hlt : r.currentHighBidAmount < minAllowedForRoom r := by
        unfold minAllowedForRoom
        rw [if_neg (by omega)]
        have := minIncrementFor_ge r.currentHighBidAmount
        omega
      rw [if_pos hlt]
      rfl

/-- Witness for C5 amended: an equal bid against a positive standing high is
rejected. -/
theorem C5_tie_resolution_amended_witness :
    (placeBid exStateHigh100 exStateHigh100 exRoomHigh100 "B" (.numeric 100) 0 50).isOk =
      false :=
  C5_tie_resolution_amended.2.1 exStateHigh100 exStateHigh100 exRoomHigh100 exRoomHigh100
    "B" (.numeric 100) 0 50 (by decide) (by decide) (by decide)

/-- find? only depends on the pointwise values of its predicate. -/
theorem find?_congr {α : Type} {p q : α → Bool} (h : ∀ a, p a = q a) :
    ∀ l : List α, l.find? p = l.find? q := by
  intro l
  induction l with
  | nil => rfl
  | cons a as ih => rw [List.find?_cons, List.find?_cons, h a, ih]

/-- The source's Set-of-winners accumulator and the spec's assigned-before
list agree whenever they contain the same bidders. -/
theorem finalizeAssign_eq_spec :
    ∀ (l : List Room) (acc1 acc2 : List String),
      (∀ x, acc1.contains x = acc2.contains x) →
      finalizeAssign l acc1 = assignGreedySpec l acc2 := by
  intro l
  induction l with
  | nil => intro acc1 acc2 _; rfl
  | cons room rest ih =>
    intro acc1 acc2 hacc
    unfold finalizeAssign assignGreedySpec
    rw [find?_congr (fun b : Bid => by rw [hacc]) (sortBids room.bids)]
    cases hf : (sortBids room.bids).find? (fun b => !acc2.contains b.bidderUid) with
    | none => dsimp only; rw [ih acc1 acc2 hacc]
    | some w =>
      have hacc' : ∀ x, (w.bidderUid :: acc1).contains x =
          (acc2 ++ [w.bidderUid]).contains x := by
        intro x
        have h1 : (w.bidderUid :: acc1).contains x = (x == w.bidderUid || acc1.contains x) :=
          rfl
        have h2 : (acc2 ++ [w.bidderUid]).contains x =
            (acc2.contains x || x == w.bidderUid) := by
          simp
          rfl
        rw [h1, h2, hacc, Bool.or_comm]
      dsimp only
      rw [ih (w.bidderUid :: acc1) (acc2 ++ [w.bidderUid]) hacc']

/-- The winner write preserves the fields finalization reads. -/
theorem winnerWrite_fields (results : List RoomResult) (r : Room) :
    (winnerWrite results r).id = r.id ∧
      (winnerWrite results r).currentHighBidAmount = r.currentHighBidAmount ∧
      (winnerWrite results r).bids = r.bids := by
  unfold winnerWrite
  cases hf : results.find? (fun res => res.roomId == r.id) <;> simp

/-- Stable insertion commutes with a map that preserves the order test. -/
theorem insertSorted_map {α : Type} (lt : α → α → Bool) (g : α → α)
    (hlt : ∀ a b, lt (g a) (g b) = lt a b) (a : α) :
    ∀ l : List α, insertSorted lt (g a) (l.map g) = (insertSorted lt a l).map g := by
  intro l
  induction l with
  | nil => rfl
  | cons b bs ih =>
    simp only [List.map_cons, insertSorted, hlt b a]
    cases h : lt b a
    · simp [h]
    · simp [h, ih]

/-- Stable sorting commutes with a map that preserves the order test. -/
theorem sortBy_map {α : Type} (lt : α → α → Bool) (g : α → α)
    (hlt : ∀ a b, lt (g a) (g b) = lt a b) :
    ∀ l : List α, sortBy lt (l.map g) = (sortBy lt l).map g := by
  intro l
  induction l with
  | nil => rfl
  | cons a as ih =>
    simp only [List.map_cons, sortBy]
    rw [ih, insertSorted_map lt g hlt]

/-- Finalization ignores every room field except id and bids. -/
theorem finalizeAssign_map (g : Room → Room)
    (hg : ∀ r, (g r).id = r.id ∧ (g r).bids = r.bids) :
    ∀ (l : List Room) (acc : List String),
      finalizeAssign (l.map g) acc = finalizeAssign l acc := by
  intro l
  induction l with
  | nil => intro acc; rfl
  | cons room rest ih =>
    intro acc
    simp only [List.map_cons]
    unfold finalizeAssign
    rw [(hg room).1, (hg room).2]
    cases hf : (sortBids room.bids).find? (fun b => !acc.contains b.bidderUid) with
    | none => dsimp only; rw [ih acc]
    | some w => dsimp only; rw [ih (w.bidderUid :: acc)]

/-- C6: finalizeAuctionCore processes the rooms sorted by current high bid
descending and, room by room in that order, assigns the first bid (per
amount descending, time ascending) whose bidder was not assigned before,
recording null fields when none exists - it equals the spec's greedy
assignment over the sorted rooms; and running finalization again on the
state its writes produce (winner fields set, trip ended, rooms and bids
unchanged) yields the identical winner map. -/
theorem C6_finalize_greedy_idempotent :
    (∀ rooms : List Room,
      finalizeAuctionCore rooms = assignGreedySpec (sortBy roomLt rooms) []) ∧
    (∀ s : TripState,
      finalizeAuctionCore (finalizeApply s).rooms = finalizeAuctionCore s.rooms) := by
  constructor
  · intro rooms
    exact finalizeAssign_eq_spec _ [] [] (fun x => rfl)
  · intro s
    have key : ∀ (res : List RoomResult) (rooms : List Room),
        finalizeAuctionCore (rooms.map (winnerWrite res)) = finalizeAuctionCore rooms := by
      intro res rooms
      have hg := winnerWrite_fields res
      have hcompat : ∀ a b : Room,
          roomLt (winnerWrite res a) (winnerWrite res b) = roomLt a b := by
        intro a b
        unfold roomLt
        rw [(hg a).2.1, (hg b).2.1]
      unfold finalizeAuctionCore
      rw [sortBy_map roomLt (winnerWrite res) hcompat]
      exact finalizeAssign_map _ (fun r => ⟨(hg r).1, (hg r).2.2⟩) _ []
    exact key (finalizeAuctionCore s.rooms) s.rooms

/-- Winners produced by the assignment loop are distinct and disjoint from
the already-assigned set. -/
theorem finalizeAssign_winners_spec :
    ∀ (l : List Room) (acc : List String),
      ((finalizeAssign l acc).filterMap RoomResult.winnerUid).Nodup ∧
      (∀ u ∈ (finalizeAssign l acc).filterMap RoomResult.winnerUid,
        acc.contains u = false) := by
  intro l
  induction l with
  | nil =>
    intro acc
    refine ⟨by simp [finalizeAssign], ?_⟩
    intro u hu
    simp [finalizeAssign] at hu
  | cons room rest ih =>
    intro acc
    unfold finalizeAssign
    cases hf : (sortBids room.bids).find? (fun b => !acc.contains b.bidderUid) with
    | none =>
      obtain ⟨ihn, ihc⟩ := ih acc
      simp only [List.filterMap_cons]
      exact ⟨ihn, ihc⟩
    | some w =>
      have hw : acc.contains w.bidderUid = false := by
        have := List.find?_some hf
        simpa using this
      obtain ⟨ihn, ihc⟩ := ih (w.bidderUid :: acc)
      simp only [List.filterMap_cons]
      constructor
      · refine List.nodup_cons.mpr ⟨?_, ihn⟩
        intro hmem
        have hc := ihc w.bidderUid hmem
        have : (w.bidderUid :: acc).contains w.bidderUid = true := by simp
        rw [this] at hc
        cases hc
      · intro u hu
        rcases List.mem_cons.mp hu with rfl | hurest
        · exact hw
        · have hc := ihc u hurest
          have hdecomp : (w.bidderUid :: acc).contains u =
              (u == w.bidderUid || acc.contains u) := rfl
          rw [hdecomp] at hc
          exact (Bool.or_eq_false_iff.mp hc).2

/-- C7: after finalization each bidder identifier is recorded as winner of at
most one room, for every set of rooms and bid histories. -/
theorem C7_no_double_winner (rooms : List Room) :
    ((finalizeAuctionCore rooms).filterMap RoomResult.winnerUid).Nodup :=
  (finalizeAssign_winners_spec (sortBy roomLt rooms) []).1

/-- C10: finalization can record as a room's winner a bidder other than its
current high bidder, at an amount strictly below the room's current high:
here r2's leading bidder A already won r1, so B wins r2 at 60 < 90. -/
theorem C10_winner_below_current_high :
    finalizeAuctionCore [exRoomF1, exRoomF2] =
      [⟨"r1", some "A", some 100⟩, ⟨"r2", some "B", some 60⟩] ∧
      exRoomF2.currentHighBidderUid = some "A" ∧
      ((some "B" : Option String) == exRoomF2.currentHighBidderUid) = false ∧
      exRoomF2.currentHighBidAmount = 90 ∧
      (60 : Int) < exRoomF2.currentHighBidAmount := by
  refine ⟨by decide, rfl, by decide, rfl, by decide⟩

end Bidroom
